import Mathlib

/-!
# Verification of the BzDeck bug-timeline merge and attachment model

Shallow embedding of the relevant parts of the BzDeck client:

* `BugTimelineView`'s constructor (src/webroot/static/scripts/views/bug-timeline.js),
  which merges a bug's comments, attachments and history entries into one
  timestamp-keyed, time-ordered sequence and marks entries for immediate or
  deferred rendering;
* `AttachmentModel` (fetch / get_data / save);
* `AccountDataSource.onupgradeneeded`, the IndexedDB schema migration.

JavaScript `Map` objects are modelled as insertion-ordered association lists:
`set` replaces the value in place when the key exists and appends at the end
otherwise, and iteration follows that order, exactly as in ECMAScript.
Millisecond timestamps (the result of `new Date(str).getTime()`) are modelled
as the already-parsed natural numbers.
-/

namespace BzDeck

/-! ## JavaScript `Map` as an insertion-ordered association list -/

section JSMap

variable {κ : Type} {ν : Type} [DecidableEq κ]

/-- `Map.prototype.set`: replace the value in place if the key is present,
otherwise append the new pair at the end (ECMAScript insertion order). -/
def mapSet (k : κ) (v : ν) : List (κ × ν) → List (κ × ν)
  | [] => [(k, v)]
  | (k', v') :: rest => if k' = k then (k, v) :: rest else (k', v') :: mapSet k v rest

/-- `Map.prototype.has`. -/
def mapHas (m : List (κ × ν)) (k : κ) : Bool :=
  m.any fun p => decide (p.1 = k)

/-- `Map.prototype.get`, returning `none` for `undefined`. -/
def mapLookup (k : κ) : List (κ × ν) → Option ν
  | [] => none
  | (k', v) :: rest => if k' = k then some v else mapLookup k rest

/-- Mutate the value stored under `k` in place (the JS idiom
`m.get(k).set(...)`, which mutates the inner object without touching the
outer map's key order). Absent keys are left alone. -/
def mapModify (k : κ) (f : ν → ν) : List (κ × ν) → List (κ × ν)
  | [] => []
  | (k', v) :: rest => if k' = k then (k', f v) :: rest else (k', v) :: mapModify k f rest

theorem mapSet_keys (k : κ) (v : ν) (m : List (κ × ν)) :
    (mapSet k v m).map Prod.fst =
      if mapHas m k then m.map Prod.fst else m.map Prod.fst ++ [k] := by
  induction m with
  | nil => simp [mapSet, mapHas]
  | cons p rest ih =>
    obtain ⟨k', v'⟩ := p
    by_cases h : k' = k
    · subst h
      simp [mapSet, mapHas]
    · simp only [mapSet, if_neg h, mapHas, List.any_cons, List.map_cons, ih, mapHas]
      have : decide (k' = k) = false := by simpa using h
      by_cases h2 : rest.any (fun p => decide (p.1 = k)) = true
      · simp [this, h2]
      · simp [this, h2, Bool.or_eq_true]

theorem mapModify_keys (k : κ) (f : ν → ν) (m : List (κ × ν)) :
    (mapModify k f m).map Prod.fst = m.map Prod.fst := by
  induction m with
  | nil => rfl
  | cons p rest ih =>
    obtain ⟨k', v'⟩ := p
    by_cases h : k' = k <;> simp [mapModify, h, ih]

theorem mapSet_keys_nodup (k : κ) (v : ν) (m : List (κ × ν))
    (h : (m.map Prod.fst).Nodup) : ((mapSet k v m).map Prod.fst).Nodup := by
  rw [mapSet_keys]
  by_cases hk : mapHas m k
  · simpa [hk]
  · have hk' : k ∉ m.map Prod.fst := by
      intro hmem
      apply hk
      simp only [mapHas, List.any_eq_true]
      obtain ⟨p, hp, hpk⟩ := List.mem_map.mp hmem
      exact ⟨p, hp, by simpa using hpk⟩
    simp only [hk, if_false]
    exact List.Nodup.append h (List.nodup_singleton k) (by
      intro a ha hb
      simp only [List.mem_singleton] at hb
      exact hk' (hb ▸ ha))

theorem mapModify_values (k : κ) (f : ν → ν) (m : List (κ × ν)) (p : κ × ν)
    (hp : p ∈ mapModify k f m) : p ∈ m ∨ ∃ v, (k, v) ∈ m ∧ p = (k, f v) := by
  induction m with
  | nil => simp [mapModify] at hp
  | cons q rest ih =>
    obtain ⟨k', v'⟩ := q
    by_cases h : k' = k
    · subst h
      simp only [mapModify, if_pos rfl, if_true, List.mem_cons] at hp
      rcases hp with hp | hp
      · exact Or.inr ⟨v', List.mem_cons_self _ _, hp⟩
      · exact Or.inl (List.mem_cons_of_mem _ hp)
    · simp only [mapModify, if_neg h, List.mem_cons] at hp
      rcases hp with hp | hp
      · exact Or.inl (hp ▸ List.mem_cons_self _ _)
      · rcases ih hp with h1 | ⟨v, hv, hpv⟩
        · exact Or.inl (List.mem_cons_of_mem _ h1)
        · exact Or.inr ⟨v, List.mem_cons_of_mem _ hv, hpv⟩

theorem mapSet_mem (k : κ) (v : ν) (m : List (κ × ν)) (p : κ × ν)
    (hp : p ∈ mapSet k v m) : p ∈ m ∨ p = (k, v) := by
  induction m with
  | nil => simp [mapSet] at hp; exact Or.inr hp
  | cons q rest ih =>
    obtain ⟨k', v'⟩ := q
    by_cases h : k' = k
    · subst h
      simp only [mapSet, if_pos rfl, if_true, List.mem_cons] at hp
      rcases hp with hp | hp
      · exact Or.inr hp
      · exact Or.inl (List.mem_cons_of_mem _ hp)
    · simp only [mapSet, if_neg h, List.mem_cons] at hp
      rcases hp with hp | hp
      · exact Or.inl (hp ▸ List.mem_cons_self _ _)
      · rcases ih hp with h1 | h1
        · exact Or.inl (List.mem_cons_of_mem _ h1)
        · exact Or.inr h1

end JSMap

theorem mapHas_iff_mem {κ ν : Type} [DecidableEq κ] (m : List (κ × ν)) (k : κ) :
    mapHas m k = true ↔ k ∈ m.map Prod.fst := by
  simp only [mapHas, List.any_eq_true, decide_eq_true_eq]
  constructor
  · rintro ⟨p, hp, he⟩
    exact he ▸ List.mem_map_of_mem Prod.fst hp
  · intro hmem
    obtain ⟨p, hp, he⟩ := List.mem_map.mp hmem
    exact ⟨p, hp, he⟩

/-! ## The timeline data model

A bug's comments, attachments and history entries, as consumed by
`BugTimelineView`'s constructor.  `creation_time` / `when` carry the parsed
millisecond timestamp (`new Date(str).getTime()`); the remaining payload
fields stand in for the rest of the Bugzilla objects. -/

/-- A bug comment (`bug.comments` element). -/
structure Comment where
  creation_time : Nat
  text : String
  deriving DecidableEq

/-- A bug attachment as embedded in `bug.attachments`. -/
structure TAttachment where
  creation_time : Nat
  att_id : Nat
  deriving DecidableEq

/-- A bug history entry (`bug.history` element); `when` is its timestamp. -/
structure History where
  when : Nat
  who : String
  deriving DecidableEq

/-- A value stored in one per-timestamp record (the inner JS `Map`): the keys
used by the constructor are `comment`, `attachment`, `history`, and later
`time` and `rendering`. -/
inductive EntryVal where
  | comment (c : Comment)
  | attachment (a : TAttachment)
  | history (h : History)
  | time (t : Nat)
  | rendering (b : Bool)
  deriving DecidableEq

/-- One per-timestamp combined record: an insertion-ordered JS `Map` from
string keys to entry values. -/
abbrev Record := List (String × EntryVal)

/-! ## The timeline merge (BugTimelineView constructor, lines 24-46)

```js
const entries = new Map([...this.bug.comments.entries()]
        .map(([index, comment]) => [get_time(comment.creation_time), new Map([['comment', comment]])]));

for (const attachment of this.bug.attachments) {
  entries.get(get_time(attachment.creation_time)).set('attachment', attachment);
}

for (const _history of this.bug.history) if (entries.has(get_time(_history.when))) {
  entries.get(get_time(_history.when)).set('history', _history);
} else {
  entries.set(get_time(_history.when), new Map([['history', _history]]));
}

// Sort by time
this.entries = new Map([...entries].sort((a, b) => a[0] > b[0]));
```

When an attachment's timestamp matches no existing key, `entries.get(...)`
is `undefined` and the `.set` call throws a TypeError; that is modelled by
`Option` (`none` = the constructor throws). -/

/-- The initial `entries` map built from the comments alone. -/
def initialEntries (comments : List Comment) : List (Nat × Record) :=
  comments.foldl (fun m c => mapSet c.creation_time [("comment", EntryVal.comment c)] m) []

/-- The attachment loop.  `entries.get(t)` is `undefined` when no comment
shares the timestamp, and `undefined.set(...)` throws: `none`. -/
def addAttachments : List TAttachment → List (Nat × Record) → Option (List (Nat × Record))
  | [], m => some m
  | a :: rest, m =>
    if mapHas m a.creation_time then
      addAttachments rest (mapModify a.creation_time (mapSet "attachment" (EntryVal.attachment a)) m)
    else
      none

/-- The history loop, which (unlike the attachment loop) handles fresh
timestamps by inserting a new record. -/
def addHistories : List History → List (Nat × Record) → List (Nat × Record)
  | [], m => m
  | e :: rest, m =>
    addHistories rest
      (if mapHas m e.when then mapModify e.when (mapSet "history" (EntryVal.history e)) m
       else m ++ [(e.when, [("history", EntryVal.history e)])])

/-- The unsorted merged `entries` map; `none` when the constructor throws. -/
def buildEntries (comments : List Comment) (attachments : List TAttachment)
    (history : List History) : Option (List (Nat × Record)) :=
  (addAttachments attachments (initialEntries comments)).map (addHistories history)

/-- The comparison used by `[...entries].sort((a, b) => a[0] > b[0])`: the
boolean comparator coerces to `1` / `0`, so a stable sort keeps `p` before `q`
exactly when `p[0] <= q[0]`.  All keys are distinct (they are `Map` keys), so
the strictly-ascending result is the unique sorted permutation. -/
def entryLE (p q : Nat × Record) : Prop := p.1 ≤ q.1

instance : DecidableRel entryLE := fun p q => Nat.decLe p.1 q.1

instance : IsTotal (Nat × Record) entryLE := ⟨fun p q => Nat.le_total p.1 q.1⟩

instance : IsTrans (Nat × Record) entryLE := ⟨fun _ _ _ => Nat.le_trans⟩

/-- `new Map([...entries].sort((a, b) => a[0] > b[0]))`. -/
def sortEntries (m : List (Nat × Record)) : List (Nat × Record) :=
  List.insertionSort entryLE m

/-- `this.entries`: the sorted, merged timeline, or `none` when the
constructor throws a TypeError. -/
def timelineEntries (comments : List Comment) (attachments : List TAttachment)
    (history : List History) : Option (List (Nat × Record)) :=
  (buildEntries comments attachments history).map sortEntries

/-! ## Invariants of the merge -/

/-- The key list of a per-timestamp record. -/
def keysOf (r : Record) : List String := r.map Prod.fst

/-- Shape after the comment phase. -/
def commentShape (r : Record) : Prop := keysOf r = ["comment"]

/-- Shape after the attachment phase. -/
def mergeShape (r : Record) : Prop :=
  keysOf r = ["comment"] ∨ keysOf r = ["comment", "attachment"]

/-- Shape after the history phase. -/
def finalShape (r : Record) : Prop :=
  keysOf r = ["comment"] ∨ keysOf r = ["comment", "attachment"] ∨
    keysOf r = ["comment", "history"] ∨ keysOf r = ["comment", "attachment", "history"] ∨
    keysOf r = ["history"]

theorem keysOf_mapSet (k : String) (v : EntryVal) (r : Record) :
    keysOf (mapSet k v r) = if mapHas r k then keysOf r else keysOf r ++ [k] :=
  mapSet_keys k v r

theorem mapHas_of_keys (r : Record) (k : String) (ks : List String)
    (h : keysOf r = ks) : mapHas r k = decide (k ∈ ks) := by
  simp only [keysOf] at h
  by_cases hk : k ∈ ks
  · simp only [hk, decide_True]
    exact (mapHas_iff_mem r k).mpr (h ▸ hk)
  · simp only [hk, decide_False]
    rw [← Bool.not_eq_true]
    intro hc
    exact hk (h ▸ (mapHas_iff_mem r k).mp hc)

theorem mergeShape_mapSet_attachment (v : EntryVal) (r : Record)
    (h : mergeShape r) : mergeShape (mapSet "attachment" v r) := by
  rcases h with h | h
  · right
    rw [keysOf_mapSet, mapHas_of_keys r _ _ h, h]
    decide
  · right
    rw [keysOf_mapSet, mapHas_of_keys r _ _ h, h]
    decide

theorem finalShape_mapSet_history (v : EntryVal) (r : Record)
    (h : finalShape r) : finalShape (mapSet "history" v r) := by
  rcases h with h | h | h | h | h
  · right; right; left
    rw [keysOf_mapSet, mapHas_of_keys r _ _ h, h]; decide
  · right; right; right; left
    rw [keysOf_mapSet, mapHas_of_keys r _ _ h, h]; decide
  · right; right; left
    rw [keysOf_mapSet, mapHas_of_keys r _ _ h, h]; decide
  · right; right; right; left
    rw [keysOf_mapSet, mapHas_of_keys r _ _ h, h]; decide
  · right; right; right; right
    rw [keysOf_mapSet, mapHas_of_keys r _ _ h, h]; decide

theorem initialEntries_inv (comments : List Comment) :
    ((initialEntries comments).map Prod.fst).Nodup ∧
      ∀ p ∈ initialEntries comments, commentShape p.2 := by
  suffices h : ∀ acc : List (Nat × Record), (acc.map Prod.fst).Nodup →
      (∀ p ∈ acc, commentShape p.2) →
      ((comments.foldl
          (fun m c => mapSet c.creation_time [("comment", EntryVal.comment c)] m) acc).map
            Prod.fst).Nodup ∧
        ∀ p ∈ comments.foldl
            (fun m c => mapSet c.creation_time [("comment", EntryVal.comment c)] m) acc,
          commentShape p.2 by
    exact h [] (by simp) (by simp)
  induction comments with
  | nil => intro acc h1 h2; exact ⟨h1, h2⟩
  | cons c rest ih =>
    intro acc h1 h2
    simp only [List.foldl_cons]
    refine ih _ (mapSet_keys_nodup _ _ _ h1) ?_
    intro p hp
    rcases mapSet_mem _ _ _ _ hp with h | h
    · exact h2 p h
    · rw [h]; rfl

theorem addAttachments_inv (atts : List TAttachment) (m m' : List (Nat × Record))
    (hn : (m.map Prod.fst).Nodup) (hs : ∀ p ∈ m, mergeShape p.2)
    (h : addAttachments atts m = some m') :
    (m'.map Prod.fst).Nodup ∧ ∀ p ∈ m', mergeShape p.2 := by
  induction atts generalizing m with
  | nil =>
    simp only [addAttachments, Option.some.injEq] at h
    exact h ▸ ⟨hn, hs⟩
  | cons a rest ih =>
    simp only [addAttachments] at h
    by_cases hk : mapHas m a.creation_time
    · rw [if_pos hk] at h
      refine ih _ ?_ ?_ h
      · rw [mapModify_keys]; exact hn
      · intro p hp
        rcases mapModify_values _ _ _ _ hp with h1 | ⟨v, hv, hpv⟩
        · exact hs p h1
        · rw [hpv]
          exact mergeShape_mapSet_attachment _ _ (hs _ hv)
    · rw [if_neg hk] at h
      exact absurd h (by simp)

theorem addHistories_inv (hist : List History) (m : List (Nat × Record))
    (hn : (m.map Prod.fst).Nodup) (hs : ∀ p ∈ m, finalShape p.2) :
    ((addHistories hist m).map Prod.fst).Nodup ∧
      ∀ p ∈ addHistories hist m, finalShape p.2 := by
  induction hist generalizing m with
  | nil => exact ⟨hn, hs⟩
  | cons e rest ih =>
    simp only [addHistories]
    by_cases hk : mapHas m e.when
    · rw [if_pos hk]
      refine ih _ ?_ ?_
      · rw [mapModify_keys]; exact hn
      · intro p hp
        rcases mapModify_values _ _ _ _ hp with h1 | ⟨v, hv, hpv⟩
        · exact hs p h1
        · rw [hpv]
          exact finalShape_mapSet_history _ _ (hs _ hv)
    · rw [if_neg hk]
      refine ih _ ?_ ?_
      · rw [List.map_append]
        refine List.Nodup.append hn (by simp) ?_
        intro t ht ht'
        simp only [List.map_cons, List.map_nil, List.mem_singleton] at ht'
        exact hk ((mapHas_iff_mem m e.when).mpr (ht' ▸ ht))
      · intro p hp
        rcases List.mem_append.mp hp with h1 | h1
        · exact hs p h1
        · simp only [List.mem_singleton] at h1
          rw [h1]
          right; right; right; right; rfl

theorem buildEntries_inv (c : List Comment) (a : List TAttachment) (h : List History)
    (m : List (Nat × Record)) (hb : buildEntries c a h = some m) :
    (m.map Prod.fst).Nodup ∧ ∀ p ∈ m, finalShape p.2 := by
  simp only [buildEntries, Option.map_eq_some'] at hb
  obtain ⟨m0, hm0, hm⟩ := hb
  obtain ⟨h1, h2⟩ := initialEntries_inv c
  obtain ⟨h3, h4⟩ := addAttachments_inv a _ m0 h1 (fun p hp => Or.inl (h2 p hp)) hm0
  subst hm
  exact addHistories_inv h m0 h3 fun p hp => (h4 p hp).elim Or.inl (fun h => Or.inr (Or.inl h))

theorem sortEntries_perm (m : List (Nat × Record)) : List.Perm (sortEntries m) m :=
  List.perm_insertionSort entryLE m

theorem sortEntries_sorted (m : List (Nat × Record)) :
    (sortEntries m).Pairwise entryLE :=
  List.sorted_insertionSort entryLE m

theorem sortEntries_strict (m : List (Nat × Record)) (hn : (m.map Prod.fst).Nodup) :
    (sortEntries m).Pairwise fun p q => p.1 < q.1 := by
  have hperm : List.Perm ((sortEntries m).map Prod.fst) (m.map Prod.fst) :=
    (sortEntries_perm m).map Prod.fst
  have hn' : ((sortEntries m).map Prod.fst).Nodup := hperm.nodup_iff.mpr hn
  have hne : (sortEntries m).Pairwise fun p q => p.1 ≠ q.1 :=
    (List.pairwise_map).mp hn'
  have := (sortEntries_sorted m).and hne
  exact this.imp fun hpq => lt_of_le_of_ne hpq.1 hpq.2

theorem mapHas_mapSet (k k' : String) (v : EntryVal) (r : Record) :
    mapHas (mapSet k v r) k' = (mapHas r k' || decide (k' = k)) := by
  rw [Bool.eq_iff_iff]
  simp only [Bool.or_eq_true, decide_eq_true_eq, mapHas_iff_mem, mapSet_keys]
  by_cases hk : k ∈ List.map Prod.fst r
  · simp only [hk, if_true]
    constructor
    · exact Or.inl
    · rintro (h1 | rfl)
      · exact h1
      · exact hk
  · simp only [hk, if_false, List.mem_append, List.mem_singleton]

theorem finalShape_no_rendering (r : Record) (h : finalShape r) :
    mapHas r "rendering" = false := by
  rcases h with h | h | h | h | h <;> (rw [mapHas_of_keys r _ _ h]; decide)

/-! ## The last-visit marking (BugTimelineView constructor, lines 48-67)

```js
for (const [time, data] of this.entries) {
  // Append the time in data for later use
  data.set('time', time);

  if (!delayed && this.bug._last_visit && time < get_time(this.bug._last_visit)) {
    if (data.has('comment')) {
      read_comments_num++;
      last_comment_time = time;
    }
  } else {
    data.set('rendering', true);
  }
}
```

`this.bug._last_visit` is modelled as `Option Nat` (`none` = no annotation,
falsy); the loop's outputs `read_comments_num` and `last_comment_time`
(initially `undefined`) are carried along. -/

/-- The loop state: the processed entries (each record mutated in place) plus
the two counters. -/
structure MarkState where
  entries : List (Nat × Record)
  read_comments_num : Nat
  last_comment_time : Option Nat
  deriving DecidableEq

/-- The truthiness of
`!delayed && this.bug._last_visit && time < get_time(this.bug._last_visit)`. -/
def isReadTime (delayed : Bool) (lastVisit : Option Nat) (t : Nat) : Bool :=
  !delayed &&
    (match lastVisit with
     | some b => decide (t < b)
     | none => false)

/-- One iteration of the collapse-read-comments loop. -/
def markStep (delayed : Bool) (lastVisit : Option Nat) (st : MarkState) (p : Nat × Record) :
    MarkState :=
  let r1 := mapSet "time" (EntryVal.time p.1) p.2
  if isReadTime delayed lastVisit p.1 then
    if mapHas r1 "comment" then
      { entries := st.entries ++ [(p.1, r1)],
        read_comments_num := st.read_comments_num + 1,
        last_comment_time := some p.1 }
    else
      { st with entries := st.entries ++ [(p.1, r1)] }
  else
    { st with entries := st.entries ++ [(p.1, mapSet "rendering" (EntryVal.rendering true) r1)] }

/-- The whole loop over the sorted `this.entries`. -/
def markEntries (delayed : Bool) (lastVisit : Option Nat)
    (entries : List (Nat × Record)) : MarkState :=
  entries.foldl (markStep delayed lastVisit) ⟨[], 0, none⟩

/-- How each record of the marking loop's output relates to some input
record at the same timestamp. -/
def markedFrom (delayed : Bool) (lastVisit : Option Nat) (es : List (Nat × Record))
    (p : Nat × Record) : Prop :=
  ∃ r, (p.1, r) ∈ es ∧
    p.2 = (if isReadTime delayed lastVisit p.1 then
        mapSet "time" (EntryVal.time p.1) r
      else
        mapSet "rendering" (EntryVal.rendering true) (mapSet "time" (EntryVal.time p.1) r))

theorem markStep_entries (delayed : Bool) (lastVisit : Option Nat) (st : MarkState)
    (p q : Nat × Record) (hq : q ∈ (markStep delayed lastVisit st p).entries) :
    q ∈ st.entries ∨ markedFrom delayed lastVisit [p] q := by
  simp only [markStep] at hq
  by_cases hread : isReadTime delayed lastVisit p.1 = true
  · rw [if_pos hread] at hq
    by_cases hc : mapHas (mapSet "time" (EntryVal.time p.1) p.2) "comment"
    · rw [if_pos hc] at hq
      rcases List.mem_append.mp hq with h1 | h1
      · exact Or.inl h1
      · simp only [List.mem_singleton] at h1
        subst h1
        exact Or.inr ⟨p.2, List.mem_singleton.mpr rfl, by rw [if_pos hread]⟩
    · rw [if_neg hc] at hq
      rcases List.mem_append.mp hq with h1 | h1
      · exact Or.inl h1
      · simp only [List.mem_singleton] at h1
        subst h1
        exact Or.inr ⟨p.2, List.mem_singleton.mpr rfl, by rw [if_pos hread]⟩
  · rw [if_neg hread] at hq
    rcases List.mem_append.mp hq with h1 | h1
    · exact Or.inl h1
    · simp only [List.mem_singleton] at h1
      subst h1
      exact Or.inr ⟨p.2, List.mem_singleton.mpr rfl, by rw [if_neg hread]⟩

theorem markEntries_entries (delayed : Bool) (lastVisit : Option Nat)
    (es : List (Nat × Record)) (q : Nat × Record)
    (hq : q ∈ (markEntries delayed lastVisit es).entries) :
    markedFrom delayed lastVisit es q := by
  suffices h : ∀ st : MarkState, (∀ q' ∈ st.entries, markedFrom delayed lastVisit es q') →
      (∀ p ∈ es, True) →
      ∀ q' ∈ (es.foldl (markStep delayed lastVisit) st).entries,
        markedFrom delayed lastVisit es q' by
    exact h ⟨[], 0, none⟩ (by simp) (fun _ _ => trivial) q hq
  suffices hgen : ∀ (l : List (Nat × Record)) (st : MarkState),
      (∀ q' ∈ st.entries, markedFrom delayed lastVisit es q') →
      (∀ p ∈ l, p ∈ es) →
      ∀ q' ∈ (l.foldl (markStep delayed lastVisit) st).entries,
        markedFrom delayed lastVisit es q' by
    intro st hst _
    exact hgen es st hst (fun _ hp => hp)
  intro l
  induction l with
  | nil => intro st hst _ q' hq'; exact hst q' hq'
  | cons p rest ih =>
    intro st hst hsub q' hq'
    simp only [List.foldl_cons] at hq'
    refine ih (markStep delayed lastVisit st p) ?_ (fun x hx => hsub x (List.mem_cons_of_mem _ hx)) q' hq'
    intro q'' hq''
    rcases markStep_entries delayed lastVisit st p q'' hq'' with h1 | ⟨r, hr, hshape⟩
    · exact hst q'' h1
    · simp only [List.mem_singleton] at hr
      exact ⟨r, by rw [hr]; exact hsub p (List.mem_cons_self _ _), hshape⟩

/-! ## Claims about the timeline -/

/-- C2: the claim says the timeline merge always succeeds and is complete,
in particular when an attachment's creation timestamp matches no comment's
creation timestamp.  The code contradicts this: for a bug with no comment at
the attachment's timestamp, `entries.get(t)` is `undefined` and the
constructor throws a TypeError (modelled by `none`), so no merged timeline is
produced at all.  Failing input: comments `[]`, one attachment created at
time 5, history `[]`. -/
theorem claim_C2_failing :
    timelineEntries [] [⟨5, 1⟩] [] = none ∧
      timelineEntries [⟨5, "c"⟩] [⟨7, 1⟩] [] = none := by
  constructor <;> rfl

/-- C3: for every input comment, attachment and history arrays for which the
constructor completes, the merged timeline is strictly ordered by ascending
timestamp, and within one shared timestamp the combined record lists the
comment first, then the attachment, then the history entry (its key sequence
is a sublist of `comment, attachment, history`), deterministically. -/
theorem claim_C3_total_order (c : List Comment) (a : List TAttachment) (hi : List History)
    (es : List (Nat × Record)) (hes : timelineEntries c a hi = some es) :
    es.Pairwise (fun p q => p.1 < q.1) ∧
      ∀ p ∈ es, (p.2.map Prod.fst).Sublist ["comment", "attachment", "history"] := by
  simp only [timelineEntries, Option.map_eq_some'] at hes
  obtain ⟨m, hm, hsort⟩ := hes
  obtain ⟨hn, hs⟩ := buildEntries_inv c a hi m hm
  subst hsort
  constructor
  · exact sortEntries_strict m hn
  · intro p hp
    have hp' : p ∈ m := (sortEntries_perm m).subset hp
    rcases hs p hp' with h | h | h | h | h <;>
      (simp only [keysOf] at h; rw [h] <;> decide)

/-- Concrete comments used by the timeline witnesses. -/
def wComments : List Comment := [⟨5, "a"⟩, ⟨2, "b"⟩]

/-- Concrete attachments used by the timeline witnesses. -/
def wAtts : List TAttachment := [⟨5, 7⟩]

/-- Concrete history entries used by the timeline witnesses. -/
def wHist : List History := [⟨3, "w"⟩, ⟨5, "x"⟩]

/-- The merged timeline the constructor produces from `wComments`, `wAtts`
and `wHist`. -/
def wEntries : List (Nat × Record) :=
  [(2, [("comment", EntryVal.comment ⟨2, "b"⟩)]),
   (3, [("history", EntryVal.history ⟨3, "w"⟩)]),
   (5, [("comment", EntryVal.comment ⟨5, "a"⟩),
        ("attachment", EntryVal.attachment ⟨5, 7⟩),
        ("history", EntryVal.history ⟨5, "x"⟩)])]

/-- Witness for C3 at a concrete input: two comments (times 5 and 2), one
attachment (time 5), two history entries (times 3 and 5). -/
theorem claim_C3_total_order_witness :
    timelineEntries wComments wAtts wHist = some wEntries ∧
      wEntries.Pairwise (fun p q => p.1 < q.1) ∧
      ∀ p ∈ wEntries, (p.2.map Prod.fst).Sublist ["comment", "attachment", "history"] :=
  ⟨by decide, claim_C3_total_order wComments wAtts wHist wEntries (by decide)⟩

/-- C9: with the timeline not in delayed mode and a last-visit annotation
present, every merged entry whose timestamp is at or after the boundary
carries the `rendering` mark (immediate rendering), and every entry strictly
before the boundary does not (deferred/collapsed until expanded). -/
theorem claim_C9_last_visit_marking (c : List Comment) (a : List TAttachment)
    (hi : List History) (b : Nat) (es : List (Nat × Record))
    (hes : timelineEntries c a hi = some es) :
    ∀ p ∈ (markEntries false (some b) es).entries,
      (mapHas p.2 "rendering" = true ↔ b ≤ p.1) := by
  intro p hp
  obtain ⟨r, hr, hshape⟩ := markEntries_entries false (some b) es p hp
  have hfin : finalShape r := by
    simp only [timelineEntries, Option.map_eq_some'] at hes
    obtain ⟨m, hm, hsort⟩ := hes
    obtain ⟨_, hs⟩ := buildEntries_inv c a hi m hm
    have hmem : (p.1, r) ∈ m := by
      subst hsort
      exact (sortEntries_perm m).subset hr
    exact hs (p.1, r) hmem
  have hnor : mapHas r "rendering" = false := finalShape_no_rendering r hfin
  by_cases hb : p.1 < b
  · have hread : isReadTime false (some b) p.1 = true := by
      simp [isReadTime, hb]
    rw [hshape, if_pos hread, mapHas_mapSet, hnor]
    exact iff_of_false (by decide) (Nat.not_le.mpr hb)
  · have hread : isReadTime false (some b) p.1 = false := by
      simp [isReadTime, hb]
    rw [hshape, hread, if_neg Bool.false_ne_true, mapHas_mapSet]
    exact iff_of_true (by simp) (Nat.le_of_not_lt hb)

/-- Witness for C9 at a concrete input: boundary 4; the entries at times 2
and 3 stay unmarked, the entry at time 5 is marked for rendering. -/
theorem claim_C9_last_visit_marking_witness :
    timelineEntries wComments wAtts wHist = some wEntries ∧
      ∀ p ∈ (markEntries false (some 4) wEntries).entries,
        (mapHas p.2 "rendering" = true ↔ 4 ≤ p.1) :=
  ⟨by decide, claim_C9_last_visit_marking wComments wAtts wHist 4 wEntries (by decide)⟩

/-! ## The Attachment model (src/unnamed/part_002)

`AttachmentModel` holds its raw Bugzilla object in `this.data`; `this.id`
(assigned by the constructor) equals `data.id` for downloaded attachments.
`BzDeck.host.request` is a network call outside these sources, so each
operation takes the outcome the awaited request would have as a parameter:
`Except.error` means the call rejects, `Except.ok m` is the parsed
`result.attachments` mapping (id to raw attachment object). -/

/-- JavaScript truthiness of an optional string field: `undefined` and the
empty string are falsy. -/
def truthyStr : Option String → Bool
  | some s => !s.isEmpty
  | none => false

/-- A raw Bugzilla attachment object: the fields `AttachmentModel` and
`AttachmentModel.save` look at.  `data` is the base64 payload (`none` =
field absent). -/
structure AttachmentData where
  id : Nat
  bug_id : Nat
  data : Option String
  content_type : String
  is_patch : Bool
  deriving DecidableEq

/-- The state `fetch()` operates on: `this.id` and `this.data`.  `this.data`
is an `Option` because `this.data = result.attachments[this.id]` stores
`undefined` when the response omits the entity. -/
structure FetchState where
  id : Nat
  data : Option AttachmentData
  deriving DecidableEq

/-- `AttachmentModel.fetch` (part_002 lines 34-40):

```js
async fetch () {
  const result = await BzDeck.host.request(`bug/attachment/${this.id}`);
  this.data = result.attachments[this.id];
  return this.proxy();
}
```

A rejected request propagates (the assignment never runs); otherwise
`this.data` is unconditionally replaced by the mapping entry, present or
not. -/
def fetch (st : FetchState) (resp : Except Nat (List (Nat × AttachmentData))) :
    Except Nat Unit × FetchState :=
  match resp with
  | .error e => (.error e, st)
  | .ok m => (.ok (), { st with data := mapLookup st.id m })

/-- C1 counterexample: for entity 7 with known data, a successful response
whose mapping omits id 7 makes `fetch()` resolve successfully (it does not
fail with a `RemoteUnavailable` kind) and overwrites the in-memory data with
the absent value, so the last-known-good data is lost. -/
theorem claim_C1_counterexample :
    (fetch ⟨7, some ⟨7, 3, some "Zm9v", "text/plain", false⟩⟩ (.ok [])).1 = Except.ok () ∧
      (fetch ⟨7, some ⟨7, 3, some "Zm9v", "text/plain", false⟩⟩ (.ok [])).2.data = none ∧
      (⟨7, some ⟨7, 3, some "Zm9v", "text/plain", false⟩⟩ : FetchState).data ≠ none :=
  ⟨rfl, rfl, by decide⟩

/-- C1 (amended): if the network call fails, fetch() rejects with that error
and the entity's in-memory data is left unchanged; but if the call succeeds
while the response omits the entity, fetch() resolves successfully and
replaces the in-memory data with the absent value (the last-known-good data
is not preserved). -/
theorem claim_C1_fetch_amended (st : FetchState)
    (resp : Except Nat (List (Nat × AttachmentData))) :
    (∀ e, resp = .error e → fetch st resp = (.error e, st)) ∧
      (∀ m, resp = .ok m → mapLookup st.id m = none →
        fetch st resp = (.ok (), { st with data := none })) := by
  constructor
  · rintro e rfl
    rfl
  · rintro m rfl h
    simp [fetch, h]

/-- Witness for the amended C1 at entity 7: a rejected call leaves the data
alone; a successful call with an empty mapping clears it. -/
theorem claim_C1_fetch_amended_witness :
    fetch ⟨7, some ⟨7, 3, some "Zm9v", "text/plain", false⟩⟩ (.error 5) =
        (.error 5, ⟨7, some ⟨7, 3, some "Zm9v", "text/plain", false⟩⟩) ∧
      fetch ⟨7, some ⟨7, 3, some "Zm9v", "text/plain", false⟩⟩ (.ok []) =
        (.ok (), ⟨7, none⟩) :=
  ⟨(claim_C1_fetch_amended ⟨7, some ⟨7, 3, some "Zm9v", "text/plain", false⟩⟩ (.error 5)).1 5 rfl,
   (claim_C1_fetch_amended ⟨7, some ⟨7, 3, some "Zm9v", "text/plain", false⟩⟩ (.ok [])).2 [] rfl rfl⟩

/-- A cached bug as `AttachmentModel.save` sees it: its id and its embedded
attachment list (`none` = the bug was stored without an `attachments`
field). -/
structure BugData where
  id : Nat
  attachments : Option (List AttachmentData)
  deriving DecidableEq

/-- The state `get_data()` / `save()` operate on: `this.data`, the
`collections.attachments` cache, the `collections.bugs` cache, and the
bugs' Local Store. -/
structure Store where
  att : AttachmentData
  attachments : List (Nat × AttachmentData)
  bugs : List (Nat × BugData)
  bugsStore : List (Nat × BugData)
  deriving DecidableEq

/-- `AttachmentModel.save` (part_002 lines 92-104):

```js
async save () {
  const bug = await BzDeck.collections.bugs.get(this.data.bug_id);

  if (bug && bug.attachments && bug.attachments.length) {
    for (const [index, att] of bug.attachments.entries()) if (att.id === this.id && !att.data) {
      bug.attachments[index].data = this.data.data;
    }

    bug.save(bug.data);
  }

  return this.proxy();
}
```

`BugModel.save` is not in these sources; modelled from the spec ("persists
the current in-memory field data to the Local Store under this entity's
id") as writing the updated bug into both the in-memory cache (the JS code
mutates the cached object in place) and `bugsStore`.  The boolean reports
whether the parent bug was re-persisted; the method itself always resolves
(in the proxified model instance). -/
def save (st : Store) : Store × Bool :=
  match mapLookup st.att.bug_id st.bugs with
  | none => (st, false)
  | some bug =>
    match bug.attachments with
    | none => (st, false)
    | some l =>
      if l.isEmpty then (st, false)
      else
        let l' := l.map fun a =>
          if a.id = st.att.id ∧ truthyStr a.data = false then { a with data := st.att.data }
          else a
        let bug' := { bug with attachments := some l' }
        ({ st with bugs := mapSet bug.id bug' st.bugs,
                   bugsStore := mapSet bug.id bug' st.bugsStore }, true)

theorem mapLookup_mapSet_self {κ ν : Type} [DecidableEq κ] (k : κ) (v : ν)
    (m : List (κ × ν)) : mapLookup k (mapSet k v m) = some v := by
  induction m with
  | nil => simp [mapSet, mapLookup]
  | cons p rest ih =>
    obtain ⟨k', v'⟩ := p
    by_cases h : k' = k
    · subst h
      simp [mapSet, mapLookup]
    · simp [mapSet, mapLookup, h, ih]

/-- C10: when the parent bug is absent from the bugs collection, or its
cached copy has no attachment list or an empty one, save() resolves without
error, persists nothing and modifies nothing. -/
theorem claim_C10_save_noop (st : Store)
    (h : mapLookup st.att.bug_id st.bugs = none ∨
      ∃ bug, mapLookup st.att.bug_id st.bugs = some bug ∧
        (bug.attachments = none ∨ bug.attachments = some [])) :
    save st = (st, false) := by
  rcases h with h | ⟨bug, hb, hatt⟩
  · unfold save
    rw [h]
  · rcases hatt with h2 | h2 <;> simp [save, hb, h2]

/-- Witness for C10: a store whose bugs cache lacks bug 3 entirely, and one
whose cached bug 3 has an empty attachment list. -/
theorem claim_C10_save_noop_witness :
    save ⟨⟨7, 3, some "Zm9v", "text/plain", false⟩, [], [], []⟩ =
        (⟨⟨7, 3, some "Zm9v", "text/plain", false⟩, [], [], []⟩, false) ∧
      save ⟨⟨7, 3, some "Zm9v", "text/plain", false⟩, [], [(3, ⟨3, some []⟩)], []⟩ =
        (⟨⟨7, 3, some "Zm9v", "text/plain", false⟩, [], [(3, ⟨3, some []⟩)], []⟩, false) :=
  ⟨claim_C10_save_noop _ (Or.inl rfl),
   claim_C10_save_noop _ (Or.inr ⟨⟨3, some []⟩, rfl, Or.inr rfl⟩)⟩

/-- C6: saving an attachment with a populated data payload, when the parent
bug is cached with a non-empty attachment list holding a data-less stub for
this id, re-persists the parent bug and every copy under this id in the
persisted attachment list carries non-empty data afterwards. -/
theorem claim_C6_save_updates_parent (st : Store) (bug : BugData) (l : List AttachmentData)
    (hb : mapLookup st.att.bug_id st.bugs = some bug)
    (hid : bug.id = st.att.bug_id)
    (hatt : bug.attachments = some l)
    (hne : l ≠ [])
    (hstub : ∃ a ∈ l, a.id = st.att.id ∧ truthyStr a.data = false)
    (hdata : truthyStr st.att.data = true) :
    (save st).2 = true ∧
      ∃ l', mapLookup st.att.bug_id (save st).1.bugsStore =
          some { bug with attachments := some l' } ∧
        ∀ a ∈ l', a.id = st.att.id → truthyStr a.data = true := by
  have hie : l.isEmpty = false := by
    cases l with
    | nil => exact absurd rfl hne
    | cons x xs => rfl
  simp only [save, hb, hatt, hie, Bool.false_eq_true, if_false]
  refine ⟨trivial, l.map fun a =>
    if a.id = st.att.id ∧ truthyStr a.data = false then { a with data := st.att.data }
    else a, ?_, ?_⟩
  · rw [← hid, mapLookup_mapSet_self]
  · intro a ha hida
    obtain ⟨a0, ha0, hmap⟩ := List.mem_map.mp ha
    by_cases hcond : a0.id = st.att.id ∧ truthyStr a0.data = false
    · rw [if_pos hcond] at hmap
      rw [← hmap]
      exact hdata
    · rw [if_neg hcond] at hmap
      subst hmap
      rcases Decidable.not_and_iff_or_not.mp hcond with h1 | h1
      · exact absurd hida h1
      · simpa using h1

/-- Witness for C6: attachment 7 (bug 3) with payload `"Zm9v"`; bug 3 is
cached with a single data-less stub for id 7 and is re-persisted with the
payload filled in. -/
theorem claim_C6_save_updates_parent_witness :
    (save ⟨⟨7, 3, some "Zm9v", "text/plain", false⟩, [],
        [(3, ⟨3, some [⟨7, 3, none, "text/plain", false⟩]⟩)], []⟩).2 = true ∧
      ∃ l', mapLookup 3 (save ⟨⟨7, 3, some "Zm9v", "text/plain", false⟩, [],
          [(3, ⟨3, some [⟨7, 3, none, "text/plain", false⟩]⟩)], []⟩).1.bugsStore =
          some { id := 3, attachments := some l' } ∧
        ∀ a ∈ l', a.id = 7 → truthyStr a.data = true :=
  claim_C6_save_updates_parent
    ⟨⟨7, 3, some "Zm9v", "text/plain", false⟩, [],
      [(3, ⟨3, some [⟨7, 3, none, "text/plain", false⟩]⟩)], []⟩
    ⟨3, some [⟨7, 3, none, "text/plain", false⟩]⟩
    [⟨7, 3, none, "text/plain", false⟩]
    rfl rfl rfl (by decide) ⟨⟨7, 3, none, "text/plain", false⟩, by decide, rfl, rfl⟩ rfl

/-! ## Retrieving the raw file data (`get_data`, part_002 lines 49-84)

```js
async get_data () {
  const decode = () => new Promise(resolve => {
    const worker = new SharedWorker('/static/scripts/workers/tasks.js');

    worker.port.addEventListener('message', ({ data: { binary, blob }} = {}) => {
      const text = (this.is_patch || this.content_type.startsWith('text/')) ? binary : undefined;

      resolve({ blob, text, attachment: this });
    });

    worker.port.start();
    worker.port.postMessage(['decode', { str: this.data.data, type: this.content_type }]);
  });

  if (this.data.data) {
    return decode();
  }

  try {
    const result = await BzDeck.host.request(`bug/attachment/${this.id}`, new URLSearchParams('include_fields=data'));
    const attachment = result.attachments[this.id];
    const data = attachment && attachment.data ? attachment.data : undefined;

    if (!data) {
      throw new Error();
    }

    this.data.data = data;
    BzDeck.collections.attachments.set(this.id, this.data);
    this.save();

    return decode();
  } catch (error) {
    throw new Error(`The attachment ${this.id} could not be retrieved from Bugzilla.`);
  }
}
```

The worker task (tasks.js) is not in these sources, so the message it
answers with is a parameter `worker : String → String → WorkerOut` applied
to `this.data.data` and `this.content_type`. -/

/-- What the decode worker posts back: the base64-decoded binary string and
the Blob. -/
structure WorkerOut where
  binary : String
  blob : String
  deriving DecidableEq

/-- The object `get_data()` resolves with (the `attachment: this` field is
the model itself and carries no extra information here). -/
structure DecodeResult where
  blob : String
  text : Option String
  deriving DecidableEq

/-- `decode()`: the text projection is included exactly when the attachment
is a patch or its content type starts with `text/`. -/
def decode (worker : String → String → WorkerOut) (att : AttachmentData) : DecodeResult :=
  let w := worker (att.data.getD "") att.content_type
  { blob := w.blob
    text := if att.is_patch || att.content_type.startsWith "text/" then some w.binary
            else none }

/-- The failure `get_data()` rejects with: the catch block maps every
failure (rejected request, entity or payload missing from the response) to
"The attachment <id> could not be retrieved from Bugzilla", the spec's
`AttachmentUnavailable` outcome. -/
inductive GetDataError where
  | attachmentUnavailable (id : Nat)

/-- The outcome of a `get_data()` call: its result, the state afterwards,
and how many network requests were issued. -/
structure GetDataOut where
  result : Except GetDataError DecodeResult
  state : Store
  requests : Nat

/-- `AttachmentModel.get_data`.  With the payload cached it decodes at once;
otherwise it requests the data, and on success stores the payload in
`this.data.data`, updates the attachments collection and saves, then
decodes. -/
def get_data (worker : String → String → WorkerOut) (st : Store)
    (resp : Except Nat (List (Nat × AttachmentData))) : GetDataOut :=
  if truthyStr st.att.data then
    { result := .ok (decode worker st.att), state := st, requests := 0 }
  else
    match resp with
    | .error _ =>
      { result := .error (.attachmentUnavailable st.att.id), state := st, requests := 1 }
    | .ok m =>
      match mapLookup st.att.id m with
      | none =>
        { result := .error (.attachmentUnavailable st.att.id), state := st, requests := 1 }
      | some attRec =>
        if truthyStr attRec.data then
          let att' := { st.att with data := attRec.data }
          let st1 := { st with att := att', attachments := mapSet att'.id att' st.attachments }
          { result := .ok (decode worker att'), state := (save st1).1, requests := 1 }
        else
          { result := .error (.attachmentUnavailable st.att.id), state := st, requests := 1 }

/-- C4: when the payload is not cached and the partial-fields fetch
succeeds but its mapping holds no data payload for this id (entity missing,
or `data` absent or empty), get_data() fails with the AttachmentUnavailable
outcome and the state — in particular the cached entity's absent `data` —
is unchanged; the one network request was issued. -/
theorem claim_C4_no_payload (worker : String → String → WorkerOut) (st : Store)
    (m : List (Nat × AttachmentData))
    (habs : truthyStr st.att.data = false)
    (hmiss : ∀ r, mapLookup st.att.id m = some r → truthyStr r.data = false) :
    get_data worker st (.ok m) =
      { result := .error (.attachmentUnavailable st.att.id), state := st, requests := 1 } := by
  unfold get_data
  rw [habs]
  simp only [Bool.false_eq_true, if_false]
  cases hr : mapLookup st.att.id m with
  | none => rfl
  | some attRec =>
    have := hmiss attRec hr
    simp [this]

/-- Witness for C4: attachment 7 with no cached payload; the response maps
id 7 to a record whose `data` field is absent.  The call fails and the state
is unchanged. -/
theorem claim_C4_no_payload_witness :
    get_data (fun s _ => ⟨s, s⟩)
        ⟨⟨7, 3, none, "text/plain", false⟩, [], [], []⟩
        (.ok [(7, ⟨7, 3, none, "text/plain", false⟩)]) =
      { result := .error (.attachmentUnavailable 7),
        state := ⟨⟨7, 3, none, "text/plain", false⟩, [], [], []⟩, requests := 1 } :=
  claim_C4_no_payload (fun s _ => ⟨s, s⟩)
    ⟨⟨7, 3, none, "text/plain", false⟩, [], [], []⟩
    [(7, ⟨7, 3, none, "text/plain", false⟩)] rfl
    (fun r hr => by
      have h2 : (⟨7, 3, none, "text/plain", false⟩ : AttachmentData) = r := Option.some.inj hr
      rw [← h2]
      rfl)

theorem get_data_cached (worker : String → String → WorkerOut) (st : Store)
    (resp : Except Nat (List (Nat × AttachmentData)))
    (h : truthyStr st.att.data = true) :
    get_data worker st resp =
      { result := .ok (decode worker st.att), state := st, requests := 0 } := by
  unfold get_data
  rw [h]
  rfl

/-- C5: with the payload already present locally, get_data() issues no
network request and resolves immediately with the decoded payload, leaving
the state untouched; consequently, whenever the payload is present after a
first call, a second call in succession issues zero network requests. -/
theorem claim_C5_cached_no_request (worker : String → String → WorkerOut) (st : Store)
    (resp resp2 : Except Nat (List (Nat × AttachmentData)))
    (h : truthyStr (get_data worker st resp).state.att.data = true) :
    (truthyStr st.att.data = true →
      get_data worker st resp =
        { result := .ok (decode worker st.att), state := st, requests := 0 }) ∧
      (get_data worker (get_data worker st resp).state resp2).requests = 0 := by
  refine ⟨fun ht => get_data_cached worker st resp ht, ?_⟩
  rw [get_data_cached worker _ resp2 h]

/-- Witness for C5: the payload is cached, so the first call makes zero
requests and the second call (on the resulting state) also makes zero. -/
theorem claim_C5_cached_no_request_witness :
    truthyStr (get_data (fun s _ => ⟨s, s⟩)
        ⟨⟨7, 3, some "Zm9v", "text/plain", false⟩, [], [], []⟩ (.ok [])).state.att.data = true ∧
      (truthyStr (⟨7, 3, some "Zm9v", "text/plain", false⟩ : AttachmentData).data = true →
        get_data (fun s _ => ⟨s, s⟩)
            ⟨⟨7, 3, some "Zm9v", "text/plain", false⟩, [], [], []⟩ (.ok []) =
          { result := .ok (decode (fun s _ => ⟨s, s⟩) ⟨7, 3, some "Zm9v", "text/plain", false⟩),
            state := ⟨⟨7, 3, some "Zm9v", "text/plain", false⟩, [], [], []⟩, requests := 0 }) ∧
      (get_data (fun s _ => ⟨s, s⟩)
          (get_data (fun s _ => ⟨s, s⟩)
            ⟨⟨7, 3, some "Zm9v", "text/plain", false⟩, [], [], []⟩ (.ok [])).state
          (.error 0)).requests = 0 :=
  ⟨rfl, claim_C5_cached_no_request (fun s _ => ⟨s, s⟩)
    ⟨⟨7, 3, some "Zm9v", "text/plain", false⟩, [], [], []⟩ (.ok []) (.error 0) rfl⟩

theorem get_data_ok_decode (worker : String → String → WorkerOut) (st : Store)
    (resp : Except Nat (List (Nat × AttachmentData))) (res : DecodeResult)
    (h : (get_data worker st resp).result = .ok res) :
    ∃ d, res = decode worker { st.att with data := d } := by
  by_cases hc : truthyStr st.att.data = true
  · rw [get_data_cached worker st resp hc] at h
    exact ⟨st.att.data, (Except.ok.inj h).symm⟩
  · rw [Bool.not_eq_true] at hc
    unfold get_data at h
    rw [hc] at h
    simp only [Bool.false_eq_true, if_false] at h
    split at h
    · simp at h
    · split at h
      · simp at h
      · split at h
        · rename_i attRec hr hd
          exact ⟨attRec.data, (Except.ok.inj h).symm⟩
        · simp at h

/-- C8: a successful get_data() result includes the text projection exactly
when the attachment is a patch or its content type starts with `text/`;
for binary-only content the text field is absent. -/
theorem claim_C8_text_projection (worker : String → String → WorkerOut) (st : Store)
    (resp : Except Nat (List (Nat × AttachmentData))) (res : DecodeResult)
    (h : (get_data worker st resp).result = .ok res) :
    (res.text ≠ none ↔ (st.att.is_patch || st.att.content_type.startsWith "text/") = true) := by
  obtain ⟨d, rfl⟩ := get_data_ok_decode worker st resp res h
  cases hp : st.att.is_patch || st.att.content_type.startsWith "text/" <;>
    simp [decode, hp]

/-- Witness for C8: a plain-text attachment with a cached payload; the
result's text projection is present. -/
theorem claim_C8_text_projection_witness :
    (get_data (fun s _ => ⟨s, s⟩)
        ⟨⟨7, 3, some "Zm9v", "text/plain", false⟩, [], [], []⟩ (.ok [])).result =
      .ok (decode (fun s _ => ⟨s, s⟩) ⟨7, 3, some "Zm9v", "text/plain", false⟩) ∧
    ((decode (fun s _ => ⟨s, s⟩) ⟨7, 3, some "Zm9v", "text/plain", false⟩).text ≠ none ↔
      ((false : Bool) || ("text/plain".startsWith "text/")) = true) :=
  ⟨rfl, claim_C8_text_projection (fun s _ => ⟨s, s⟩)
    ⟨⟨7, 3, some "Zm9v", "text/plain", false⟩, [], [], []⟩ (.ok [])
    (decode (fun s _ => ⟨s, s⟩) ⟨7, 3, some "Zm9v", "text/plain", false⟩) rfl⟩

/-! ## The account database schema (src/unnamed/part_001)

`AccountDataSource.onupgradeneeded`:

```js
onupgradeneeded (event) {
  const database = event.target.result;

  // Create the initial stores
  if (event.oldVersion < 1) {
    database.createObjectStore('bugs', { keyPath: 'id' })
            .createIndex('alias', 'alias', { unique: true });

    database.createObjectStore('users', { keyPath: 'name' })
            .createIndex('id', 'id', { unique: true });

    database.createObjectStore('prefs', { keyPath: 'name' });
  }

  if (event.oldVersion < 2) {
    // On Bugzilla 5.0 and later, the alias field is array and it's no longer unique
    event.target.transaction.objectStore('bugs').deleteIndex('alias');
  }

  return database;
}
```

A database is a list of named object stores, each with a key path and named
indexes.  `objectStore(...)` and `deleteIndex(...)` throw NotFoundError on a
missing store or index: `none`. -/

/-- An IndexedDB index definition: its key path and uniqueness flag. -/
structure IdxDef where
  keyPath : String
  unique : Bool
  deriving DecidableEq

/-- An IndexedDB object store: its key path and its named indexes. -/
structure ObjStore where
  keyPath : String
  indexes : List (String × IdxDef)
  deriving DecidableEq

/-- An IndexedDB database: its named object stores. -/
abbrev Database := List (String × ObjStore)

/-- `Map`-style deletion (used for `deleteIndex`): remove the entry under a
key. -/
def mapDelete {κ ν : Type} [DecidableEq κ] (k : κ) : List (κ × ν) → List (κ × ν)
  | [] => []
  | (k', v) :: rest => if k' = k then rest else (k', v) :: mapDelete k rest

/-- The `event.oldVersion < 1` branch: create the `bugs`, `users` and
`prefs` stores, with a unique `alias` index on `bugs` and a unique `id`
index on `users`. -/
def createInitialStores (db : Database) : Database :=
  db ++ [("bugs", ⟨"id", [("alias", ⟨"alias", true⟩)]⟩),
         ("users", ⟨"name", [("id", ⟨"id", true⟩)]⟩),
         ("prefs", ⟨"name", []⟩)]

/-- `objectStore(storeName).deleteIndex(idxName)`: NotFoundError (`none`)
when the store or the index does not exist. -/
def deleteIndex (storeName idxName : String) (db : Database) : Option Database :=
  match mapLookup storeName db with
  | none => none
  | some s =>
    if mapHas s.indexes idxName then
      some (mapModify storeName (fun s0 => { s0 with indexes := mapDelete idxName s0.indexes }) db)
    else
      none

/-- `AccountDataSource.onupgradeneeded` as a function of `event.oldVersion`
on the pre-upgrade database. -/
def onupgradeneeded (oldVersion : Nat) (db : Database) : Option Database :=
  let db1 := if oldVersion < 1 then createInitialStores db else db
  if oldVersion < 2 then deleteIndex "bugs" "alias" db1 else some db1

/-- The version-1 schema: the three stores plus the unique `alias` index on
`bugs`. -/
def schemaV1 : Database :=
  [("bugs", ⟨"id", [("alias", ⟨"alias", true⟩)]⟩),
   ("users", ⟨"name", [("id", ⟨"id", true⟩)]⟩),
   ("prefs", ⟨"name", []⟩)]

/-- The version-2 schema: `bugs` keyed by `id` with no `alias` index,
`users` keyed by `name` with a unique index on `id`, `prefs` keyed by
`name`. -/
def schemaV2 : Database :=
  [("bugs", ⟨"id", []⟩),
   ("users", ⟨"name", [("id", ⟨"id", true⟩)]⟩),
   ("prefs", ⟨"name", []⟩)]

/-- C7: upgrading an empty (version-0) database directly to version 2, and
upgrading via the intermediate version-1 shape (the creation branch alone,
then the handler at oldVersion 1), both succeed and produce exactly the
version-2 schema: three stores, a unique `id` index on `users`, and no
`alias` index on `bugs`. -/
theorem claim_C7_schema_upgrade :
    onupgradeneeded 0 [] = some schemaV2 ∧
      createInitialStores [] = schemaV1 ∧
      onupgradeneeded 1 schemaV1 = some schemaV2 := by
  refine ⟨?_, rfl, ?_⟩ <;> rfl

end BzDeck
